import Mathlib

/-!
Verification model of the astrbot_plugin_life_scheduler repository.

The development shallowly embeds the plugin's core logic:

* `extract_json_from_text` (src/main.py) — the brace-matching JSON extractor,
  including the markdown-fence stripping regex substitutions and a model of
  Python's `json.loads` restricted to exact JSON grammar;
* the degraded-record fallback of `Main.generate_schedule_with_llm`;
* the history-context assembly loop of `Main.generate_schedule_with_llm`;
* the `/life time` command branch together with
  `LifeScheduler.update_schedule_time` and `Main.save_config` (src/main.py);
* the atomic-write sequences of `Main.save_data` / `Main.save_config` as a
  list of file-system operations executed with possible crash prefixes;
* `to_date_str` and `ScheduleDataManager` (src/core/data.py), with Python
  dates modelled as civil (y, m, d) triples and timestamps as seconds since
  the epoch under a fixed local-timezone offset;
* the concurrent trigger machinery (`Main.on_llm_request` lazy path,
  `Main.daily_schedule_task` cron path, `asyncio.Lock`) as a cooperative
  interleaving transition system for a single day key.
-/

set_option maxHeartbeats 1000000

namespace LifeSched

/-! ### Python string helpers -/

/-- Whitespace as recognised by Python's `str.strip` and the regex class
backslash-s, restricted to the ASCII forms (the unicode extras are not
exercised by any input here). -/
def pyIsSpace (c : Char) : Bool :=
  c = ' ' || c = '\t' || c = '\n' || c = '\r' || c = '\x0b' || c = '\x0c'

/-- Python `str.strip()` on a character list. -/
def pyStrip (cs : List Char) : List Char :=
  ((cs.dropWhile pyIsSpace).reverse.dropWhile pyIsSpace).reverse

/-! ### JSON values and a model of Python `json.loads`

`json.loads` is standard-library code; it is modelled here by a recursive
descent parser over the exact JSON grammar (plus the `NaN`/`Infinity`
constants CPython accepts by default).  Numeric literals are kept verbatim,
duplicate object keys follow CPython dict semantics (first position kept,
last value wins).  Lone surrogate escapes, which Lean's `Char` cannot
represent, are rejected; no input considered here contains them. -/

inductive Json where
  | null
  | bool (b : Bool)
  | num (lit : String)
  | str (s : String)
  | arr (xs : List Json)
  | obj (kvs : List (String × Json))

/-- JSON inter-token whitespace (exactly space, tab, newline, return). -/
def jsonWs (c : Char) : Bool :=
  c = ' ' || c = '\t' || c = '\n' || c = '\r'

def skipWs : List Char → List Char
  | [] => []
  | c :: cs => if jsonWs c then skipWs cs else c :: cs

def hexVal (c : Char) : Option Nat :=
  if '0' ≤ c ∧ c ≤ '9' then some (c.toNat - '0'.toNat)
  else if 'a' ≤ c ∧ c ≤ 'f' then some (c.toNat - 'a'.toNat + 10)
  else if 'A' ≤ c ∧ c ≤ 'F' then some (c.toNat - 'A'.toNat + 10)
  else none

def hex4 (a b c d : Char) : Option Nat := do
  let a ← hexVal a
  let b ← hexVal b
  let c ← hexVal c
  let d ← hexVal d
  pure (((a * 16 + b) * 16 + c) * 16 + d)

/-- Body of a JSON string after the opening quote, strict mode:
unescaped control characters are rejected, the usual escapes and
surrogate-paired `\uXXXX` are accepted. -/
def pStringBody : List Char → List Char → Option (String × List Char)
  | acc, '"' :: rest => some (⟨acc.reverse⟩, rest)
  | acc, '\\' :: 'u' :: h1 :: h2 :: h3 :: h4 :: rest =>
    match hex4 h1 h2 h3 h4 with
    | none => none
    | some n =>
      if n < 0xD800 ∨ 0xE000 ≤ n then
        pStringBody (Char.ofNat n :: acc) rest
      else if n < 0xDC00 then
        match rest with
        | '\\' :: 'u' :: k1 :: k2 :: k3 :: k4 :: rest2 =>
          match hex4 k1 k2 k3 k4 with
          | some m =>
            if 0xDC00 ≤ m ∧ m < 0xE000 then
              pStringBody (Char.ofNat (0x10000 + (n - 0xD800) * 0x400 + (m - 0xDC00)) :: acc) rest2
            else none
          | none => none
        | _ => none
      else none
  | acc, '\\' :: e :: rest =>
    if e = '"' then pStringBody ('"' :: acc) rest
    else if e = '\\' then pStringBody ('\\' :: acc) rest
    else if e = '/' then pStringBody ('/' :: acc) rest
    else if e = 'b' then pStringBody ('\x08' :: acc) rest
    else if e = 'f' then pStringBody ('\x0c' :: acc) rest
    else if e = 'n' then pStringBody ('\n' :: acc) rest
    else if e = 'r' then pStringBody ('\r' :: acc) rest
    else if e = 't' then pStringBody ('\t' :: acc) rest
    else none
  | _, [] => none
  | _, ['\\'] => none
  | acc, c :: rest =>
    if c.toNat < 0x20 then none else pStringBody (c :: acc) rest

/-- Lexeme of a JSON number: `-?(0|[1-9][0-9]*)(\.[0-9]+)?([eE][+-]?[0-9]+)?`. -/
def numLexeme (cs : List Char) : Option (List Char × List Char) :=
  let (sign, cs1) :=
    match cs with
    | '-' :: t => (['-'], t)
    | _ => (([] : List Char), cs)
  let ipart : Option (List Char × List Char) :=
    match cs1 with
    | '0' :: t => some (['0'], t)
    | c :: _ =>
      if c.isDigit then some (cs1.takeWhile Char.isDigit, cs1.dropWhile Char.isDigit)
      else none
    | [] => none
  match ipart with
  | none => none
  | some (ds, cs2) =>
    let (frac, cs3) :=
      match cs2 with
      | '.' :: t =>
        let fd := t.takeWhile Char.isDigit
        if fd = [] then (none, cs2) else (some ('.' :: fd), t.dropWhile Char.isDigit)
      | _ => ((none : Option (List Char)), cs2)
    match cs2, frac with
    | '.' :: _, none => none   -- a dot with no digits is a decode error
    | _, _ =>
      let (ex, cs4) :=
        match cs3 with
        | e :: t =>
          if e = 'e' ∨ e = 'E' then
            let (es, t2) :=
              match t with
              | '+' :: u => (['+'], u)
              | '-' :: u => (['-'], u)
              | _ => (([] : List Char), t)
            let ed := t2.takeWhile Char.isDigit
            if ed = [] then ((none : Option (List Char)), cs3)
            else (some (e :: (es ++ ed)), t2.dropWhile Char.isDigit)
          else (none, cs3)
        | [] => (none, cs3)
      match cs3, ex with
      | e :: _, none =>
        if e = 'e' ∨ e = 'E' then none
        else some (sign ++ ds ++ (frac.getD []) , cs3)
      | _, _ =>
        some (sign ++ ds ++ (frac.getD []) ++ (ex.getD []), cs4)

/-- CPython dict insertion for object members: first position kept, last
value wins. -/
def insertKV (kvs : List (String × Json)) (k : String) (v : Json) :
    List (String × Json) :=
  match kvs with
  | [] => [(k, v)]
  | (k', v') :: rest => if k' = k then (k', v) :: rest else (k', v') :: insertKV rest k v

mutual

def pValue : Nat → List Char → Option (Json × List Char)
  | 0, _ => none
  | fuel + 1, cs =>
    match cs with
    | '{' :: rest =>
      (match skipWs rest with
       | '}' :: rest1 => some (Json.obj [], rest1)
       | rest1 => pMembers fuel rest1 [])
    | '[' :: rest =>
      (match skipWs rest with
       | ']' :: rest1 => some (Json.arr [], rest1)
       | rest1 => pItems fuel rest1 [])
    | '"' :: rest => (pStringBody [] rest).map fun p => (Json.str p.1, p.2)
    | 't' :: 'r' :: 'u' :: 'e' :: rest => some (Json.bool true, rest)
    | 'f' :: 'a' :: 'l' :: 's' :: 'e' :: rest => some (Json.bool false, rest)
    | 'n' :: 'u' :: 'l' :: 'l' :: rest => some (Json.null, rest)
    | 'N' :: 'a' :: 'N' :: rest => some (Json.num "NaN", rest)
    | 'I' :: 'n' :: 'f' :: 'i' :: 'n' :: 'i' :: 't' :: 'y' :: rest =>
      some (Json.num "Infinity", rest)
    | '-' :: 'I' :: 'n' :: 'f' :: 'i' :: 'n' :: 'i' :: 't' :: 'y' :: rest =>
      some (Json.num "-Infinity", rest)
    | _ => (numLexeme cs).map fun p => (Json.num ⟨p.1⟩, p.2)

def pMembers : Nat → List Char → List (String × Json) → Option (Json × List Char)
  | 0, _, _ => none
  | fuel + 1, cs, acc =>
    match cs with
    | '"' :: rest =>
      (match pStringBody [] rest with
       | some (k, rest1) =>
         (match skipWs rest1 with
          | ':' :: rest2 =>
            (match pValue fuel (skipWs rest2) with
             | some (v, rest3) =>
               (match skipWs rest3 with
                | ',' :: rest4 => pMembers fuel (skipWs rest4) (insertKV acc k v)
                | '}' :: rest4 => some (Json.obj (insertKV acc k v), rest4)
                | _ => none)
             | none => none)
          | _ => none)
       | none => none)
    | _ => none

def pItems : Nat → List Char → List Json → Option (Json × List Char)
  | 0, _, _ => none
  | fuel + 1, cs, acc =>
    match pValue fuel cs with
    | some (v, rest) =>
      (match skipWs rest with
       | ',' :: rest1 => pItems fuel (skipWs rest1) (acc ++ [v])
       | ']' :: rest1 => some (Json.arr (acc ++ [v]), rest1)
       | _ => none)
    | none => none

end

/-- Model of Python `json.loads` on a character list: a single JSON value
with surrounding whitespace, nothing left over. -/
def json_loads (cs : List Char) : Option Json :=
  match pValue (4 * cs.length + 16) (skipWs cs) with
  | some (v, rest) => if skipWs rest = [] then some v else none
  | none => none

/-! ### The fence-stripping regex substitutions of `extract_json_from_text`

The source runs three `re.sub(..., '', text, flags=re.MULTILINE)` calls.
They are modelled operationally: a left-to-right scan replacing each
non-overlapping match with the empty string, continuing after the match,
where a multiline caret matches at position 0 and right after a newline,
and a multiline dollar matches at the end and right before a newline. -/

/-- Strip a literal prefix, returning the remainder on success. -/
def stripLit : List Char → List Char → Option (List Char)
  | [], cs => some cs
  | _ :: _, [] => none
  | p :: ps, c :: cs => if c = p then stripLit ps cs else none

/-- Drop a maximal run of regex whitespace; the Bool reports whether the
last dropped character was a newline (the continuation point is then at a
fresh line start). -/
def dropPySpacesAux : Bool → List Char → List Char × Bool
  | lastNl, [] => ([], lastNl)
  | lastNl, c :: cs =>
    if pyIsSpace c then dropPySpacesAux (c = '\n') cs else (c :: cs, lastNl)

/-- One `re.sub` pass for a pattern of shape caret-literal-backslash-s-star
under MULTILINE, replacing with the empty string.  `atStart` tracks whether
the current position is a line start; the fuel is ample because every step
consumes at least one input character. -/
def subLineStartF (lit : List Char) : Nat → Bool → List Char → List Char
  | 0, _, cs => cs
  | fuel + 1, atStart, cs =>
    match cs with
    | [] => []
    | c :: rest =>
      if atStart then
        match stripLit lit cs with
        | some afterLit =>
          let (rest', nl) := dropPySpacesAux false afterLit
          subLineStartF lit fuel nl rest'
        | none => c :: subLineStartF lit fuel (c = '\n') rest
      else c :: subLineStartF lit fuel (c = '\n') rest

def subLineStart (lit : List Char) (cs : List Char) : List Char :=
  subLineStartF lit (cs.length + 1) true cs

/-- Greedy match of backslash-s-star followed by a MULTILINE dollar:
consume the longest whitespace run whose end is the end of input or sits
right before a newline; `none` when no such stop exists. -/
def wsEolSplit : List Char → Option (List Char)
  | [] => some []
  | c :: cs =>
    if pyIsSpace c then
      match wsEolSplit cs with
      | some r => some r
      | none => if c = '\n' then some (c :: cs) else none
    else none

/-- One `re.sub` pass for the closing-fence pattern (three backticks,
whitespace, MULTILINE dollar, no caret anchor). -/
def subFenceEndF : Nat → List Char → List Char
  | 0, cs => cs
  | fuel + 1, cs =>
    match cs with
    | [] => []
    | c :: rest =>
      match stripLit "```".toList cs with
      | some afterLit =>
        (match wsEolSplit afterLit with
         | some r => subFenceEndF fuel r
         | none => c :: subFenceEndF fuel rest)
      | none => c :: subFenceEndF fuel rest

def subFenceEnd (cs : List Char) : List Char :=
  subFenceEndF (cs.length + 1) cs

/-- Suffix of the text starting at the first opening brace (`text.find`). -/
def fromFirstBrace : List Char → Option (List Char)
  | [] => none
  | c :: cs => if c = '{' then some (c :: cs) else fromFirstBrace cs

/-! ### The brace-matching scan -/

/-- The scanning loop of `extract_json_from_text`: `rev` holds the
characters consumed since the first brace in reverse, `lvl` the brace
level (a Python int, so it may go negative), `inStr`/`esc` the
string-literal state.  At every closing brace that brings the level back
to zero the span from the first brace is handed to `json.loads`; the first
successful parse is returned. -/
def scanLoop : List Char → List Char → Int → Bool → Bool → Option Json
  | [], _, _, _, _ => none
  | c :: rest, rev, lvl, inStr, esc =>
    if inStr then
      if esc then scanLoop rest (c :: rev) lvl true false
      else if c = '\\' then scanLoop rest (c :: rev) lvl true true
      else if c = '"' then scanLoop rest (c :: rev) lvl false false
      else scanLoop rest (c :: rev) lvl true false
    else
      if c = '"' then scanLoop rest (c :: rev) lvl true false
      else if c = '{' then scanLoop rest (c :: rev) (lvl + 1) false false
      else if c = '}' then
        if lvl - 1 = 0 then
          match json_loads (c :: rev).reverse with
          | some j => some j
          | none => scanLoop rest (c :: rev) (lvl - 1) false false
        else scanLoop rest (c :: rev) (lvl - 1) false false
      else scanLoop rest (c :: rev) lvl false false

/-- The same scan, but collecting every balanced candidate span instead of
parsing eagerly — this is the spec's reading of the algorithm. -/
def candList : List Char → List Char → Int → Bool → Bool → List (List Char)
  | [], _, _, _, _ => []
  | c :: rest, rev, lvl, inStr, esc =>
    if inStr then
      if esc then candList rest (c :: rev) lvl true false
      else if c = '\\' then candList rest (c :: rev) lvl true true
      else if c = '"' then candList rest (c :: rev) lvl false false
      else candList rest (c :: rev) lvl true false
    else
      if c = '"' then candList rest (c :: rev) lvl true false
      else if c = '{' then candList rest (c :: rev) (lvl + 1) false false
      else if c = '}' then
        if lvl - 1 = 0 then
          (c :: rev).reverse :: candList rest (c :: rev) (lvl - 1) false false
        else candList rest (c :: rev) (lvl - 1) false false
      else candList rest (c :: rev) lvl false false

/-- Shared preprocessing: `strip`, then the three fence substitutions. -/
def preprocess (text : String) : List Char :=
  subFenceEnd (subLineStart "```".toList (subLineStart "```json".toList (pyStrip text.data)))

/-- Model of `extract_json_from_text` (src/main.py, lines 107-147). -/
def extract_json_from_text (text : String) : Option Json :=
  match fromFirstBrace (preprocess text) with
  | none => none
  | some tail => scanLoop tail [] 0 false false

/-- The spec's description of the extractor: list the balanced candidate
spans from the first brace onward and return the first one `json.loads`
accepts. -/
def extract_json_spec (text : String) : Option Json :=
  match fromFirstBrace (preprocess text) with
  | none => none
  | some tail => (candList tail [] 0 false false).findSome? json_loads

theorem scanLoop_eq_candList (cs : List Char) :
    ∀ rev lvl inStr esc,
      scanLoop cs rev lvl inStr esc =
        (candList cs rev lvl inStr esc).findSome? json_loads := by
  induction cs with
  | nil => intro rev lvl inStr esc; rfl
  | cons c rest ih =>
    intro rev lvl inStr esc
    rw [scanLoop, candList]
    by_cases hin : inStr
    · simp only [hin, if_true]
      by_cases he : esc
      · simp [he, ih]
      · by_cases hb : c = '\\'
        · simp [he, hb, ih]
        · by_cases hq : c = '"' <;> simp [he, hb, hq, ih]
    · simp only [hin, if_false]
      by_cases hq : c = '"'
      · simp [hq, ih]
      · by_cases ho : c = '{'
        · simp [hq, ho, ih]
        · by_cases hc : c = '}'
          · by_cases hz : lvl - 1 = 0
            · subst hc
              simp only [hq, ho, hz, if_true, if_false, ite_true, ite_false,
                List.findSome?_cons, List.reverse_cons]
              cases h : json_loads (rev.reverse ++ ['}']) <;> simp [h, ih]
            · simp [hq, ho, hc, hz, ih]
          · simp [hq, ho, hc, ih]

/-! ### The degraded-record fallback of `Main.generate_schedule_with_llm` -/

/-- Python truthiness on the values `extract_json_from_text` can return
(the extractor only ever yields objects; the other cases are included for
totality). -/
def pyTruthyJson : Json → Bool
  | .null => false
  | .bool b => b
  | .num l => !(l = "0")
  | .str s => !(s = "")
  | .arr xs => !xs.isEmpty
  | .obj kvs => !kvs.isEmpty

/-- The fixed placeholder outfit of the fallback branch. -/
def FALLBACK_OUTFIT : String := "日常休闲装"

/-- The degraded record: placeholder outfit, raw generator text as the
schedule. -/
def degraded_record (content : String) : Json :=
  .obj [("outfit", .str FALLBACK_OUTFIT), ("schedule", .str content)]

/-- The post-call tail of `Main.generate_schedule_with_llm` (src/main.py,
lines 399-406): extract JSON from the completion text; a falsy result
(None or an empty dict) falls back to the degraded record. -/
def generate_schedule_result (content : String) : Json :=
  match extract_json_from_text content with
  | some j => if pyTruthyJson j then j else degraded_record content
  | none => degraded_record content

/-- Field lookup on a JSON object. -/
def jsonField (j : Json) (k : String) : Option Json :=
  match j with
  | .obj kvs => kvs.lookup k
  | _ => none

/-! ### Civil dates, `to_date_str` and `ScheduleDataManager`
(src/core/data.py)

Python `datetime.date`/`datetime.datetime` values are modelled by their
civil fields (year, month, day); numeric timestamps by seconds since the
Unix epoch, converted to a civil date with the standard civil-from-days
algorithm under a fixed local-timezone offset (the host timezone is
modelled as the fixed UTC+8 the plugin's scheduler assumes). -/

/-- Civil date from a day count since 1970-01-01 (proleptic Gregorian). -/
def civilFromDays (z0 : Int) : Int × Nat × Nat :=
  let z := z0 + 719468
  let era : Int := z.fdiv 146097
  let doe : Nat := (z - era * 146097).toNat
  let yoe : Nat := (doe - doe / 1460 + doe / 36524 - doe / 146096) / 365
  let y : Int := (yoe : Int) + era * 400
  let doy : Nat := doe - (365 * yoe + yoe / 4 - yoe / 100)
  let mp : Nat := (5 * doy + 2) / 153
  let d : Nat := doy - (153 * mp + 2) / 5 + 1
  let m : Nat := if mp < 10 then mp + 3 else mp - 9
  (if m ≤ 2 then y + 1 else y, m, d)

/-- Two-digit zero-padded decimal rendering (for 0 ≤ n ≤ 99 this is the
padding `date.isoformat` and `strftime` produce). -/
def pad2 (n : Nat) : String :=
  ⟨[Nat.digitChar (n / 10 % 10), Nat.digitChar (n % 10)]⟩

/-- Four-digit zero-padded decimal rendering (Python dates have
1 ≤ year ≤ 9999). -/
def pad4 (n : Nat) : String :=
  ⟨[Nat.digitChar (n / 1000 % 10), Nat.digitChar (n / 100 % 10),
    Nat.digitChar (n / 10 % 10), Nat.digitChar (n % 10)]⟩

/-- Python `date.isoformat()`: yyyy-mm-dd. -/
def isoformat (y : Int) (m d : Nat) : String :=
  pad4 y.toNat ++ "-" ++ pad2 m ++ "-" ++ pad2 d

/-- A day count rendered as a yyyy-mm-dd string (also the model of
`strftime("%Y-%m-%d")`). -/
def dateStrOfDay (day : Int) : String :=
  let c := civilFromDays day
  isoformat c.1 c.2.1 c.2.2

/-- The host's local timezone, modelled as a fixed UTC offset
(Asia/Shanghai, the zone the plugin schedules in). -/
def tzOffsetSeconds : Int := 8 * 3600

/-- The `DateLike` union of src/core/data.py: datetime, date, or a numeric
timestamp (fractional timestamps share their integer part's date). -/
inductive DateLike where
  | dtime (y : Int) (m d : Nat)
  | date (y : Int) (m d : Nat)
  | ts (t : Int)

/-- Model of `to_date_str` (src/core/data.py, lines 24-32): normalise any supported
date-like input to a yyyy-mm-dd string. -/
def to_date_str : DateLike → String
  | .dtime y m d => isoformat y m d
  | .date y m d => isoformat y m d
  | .ts t => dateStrOfDay ((t + tzOffsetSeconds).fdiv 86400)

/-- Inputs representable as Python date/datetime/fromtimestamp values:
civil fields in range, and timestamps whose civil conversion lands in the
year range Python supports. -/
def DateLike.Valid : DateLike → Prop
  | .dtime y m d => 1 ≤ y ∧ y ≤ 9999 ∧ 1 ≤ m ∧ m ≤ 12 ∧ 1 ≤ d ∧ d ≤ 31
  | .date y m d => 1 ≤ y ∧ y ≤ 9999 ∧ 1 ≤ m ∧ m ≤ 12 ∧ 1 ≤ d ∧ d ≤ 31
  | .ts t =>
    let c := civilFromDays ((t + tzOffsetSeconds).fdiv 86400)
    1 ≤ c.1 ∧ c.1 ≤ 9999 ∧ c.2.1 ≤ 99 ∧ c.2.2 ≤ 99

instance : DecidablePred DateLike.Valid := by
  intro d; unfold DateLike.Valid; cases d <;> exact inferInstance

/-- Is a string of the canonical yyyy-mm-dd shape? -/
def isCanonicalDateStr (s : String) : Bool :=
  match s.data with
  | [a, b, c, d, e, f, g, h, i, j] =>
    a.isDigit && b.isDigit && c.isDigit && d.isDigit && e = '-' &&
    f.isDigit && g.isDigit && h = '-' && i.isDigit && j.isDigit
  | _ => false

inductive ScheduleStatus where
  | ok
  | failed
deriving DecidableEq

/-- Model of `ScheduleData` (src/core/data.py): one record per day, keyed by its
own `date` field. -/
structure ScheduleData where
  date : String
  outfit : String := ""
  schedule : String := ""
  status : ScheduleStatus := .ok
deriving DecidableEq

/-- The manager's backing dict, as an association list with CPython dict
lookup/assignment/pop semantics. -/
abbrev ScheduleDataManager := List (String × ScheduleData)

def lookupAssoc : ScheduleDataManager → String → Option ScheduleData
  | [], _ => none
  | (k', v) :: rest, k => if k' = k then some v else lookupAssoc rest k

def setAssoc : ScheduleDataManager → String → ScheduleData → ScheduleDataManager
  | [], k, v => [(k, v)]
  | (k', v') :: rest, k, v =>
    if k' = k then (k', v) :: rest else (k', v') :: setAssoc rest k v

def removeAssoc : ScheduleDataManager → String → ScheduleDataManager
  | [], _ => []
  | (k', v') :: rest, k => if k' = k then rest else (k', v') :: removeAssoc rest k

namespace ScheduleDataManager

/-- Method `has`: membership after normalisation. -/
def has (m : ScheduleDataManager) (d : DateLike) : Bool :=
  (lookupAssoc m (to_date_str d)).isSome

/-- Method `get`: lookup after normalisation. -/
def get (m : ScheduleDataManager) (d : DateLike) : Option ScheduleData :=
  lookupAssoc m (to_date_str d)

/-- Method `set`: store under the record's own `date` field, verbatim. -/
def set (m : ScheduleDataManager) (r : ScheduleData) : ScheduleDataManager :=
  setAssoc m r.date r

/-- Method `remove`: pop after normalisation. -/
def remove (m : ScheduleDataManager) (d : DateLike) : ScheduleDataManager :=
  removeAssoc m (to_date_str d)

end ScheduleDataManager

/-- States the manager can reach from its empty initial dict through its
own interface. -/
inductive ManagerReachable : ScheduleDataManager → Prop where
  | empty : ManagerReachable []
  | set {m} (r : ScheduleData) : ManagerReachable m → ManagerReachable (m.set r)
  | remove {m} (d : DateLike) : ManagerReachable m → ManagerReachable (m.remove d)

/-- Key/value coherence: every stored pair carries its own date as key. -/
def ManagerInv (m : ScheduleDataManager) : Prop :=
  ∀ p ∈ m, (Prod.snd p).date = p.1

theorem lookupAssoc_setAssoc_self (m : ScheduleDataManager) (k : String)
    (v : ScheduleData) : lookupAssoc (setAssoc m k v) k = some v := by
  induction m with
  | nil => simp [setAssoc, lookupAssoc]
  | cons kv rest ih =>
    obtain ⟨k', v'⟩ := kv
    by_cases h : k' = k <;> simp [setAssoc, lookupAssoc, h, ih]

theorem lookupAssoc_setAssoc_ne (m : ScheduleDataManager) (k k' : String)
    (v : ScheduleData) (h : k' ≠ k) :
    lookupAssoc (setAssoc m k v) k' = lookupAssoc m k' := by
  induction m with
  | nil => simp [setAssoc, lookupAssoc, Ne.symm h]
  | cons kv rest ih =>
    obtain ⟨k0, v0⟩ := kv
    by_cases h0 : k0 = k
    · simp [setAssoc, lookupAssoc, h0, Ne.symm h]
    · by_cases h1 : k0 = k' <;> simp [setAssoc, lookupAssoc, h0, h1, h, ih]

theorem mem_setAssoc {m : ScheduleDataManager} {k : String} {v : ScheduleData}
    {p : String × ScheduleData} (hp : p ∈ setAssoc m k v) :
    p = (k, v) ∨ p ∈ m := by
  induction m with
  | nil => simpa [setAssoc] using hp
  | cons kv rest ih =>
    obtain ⟨k0, v0⟩ := kv
    by_cases h0 : k0 = k
    · subst h0
      rcases (by simpa [setAssoc] using hp : p = (k0, v) ∨ p ∈ rest) with h | h
      · exact Or.inl h
      · exact Or.inr (List.mem_cons_of_mem _ h)
    · rcases (by simpa [setAssoc, h0] using hp : p = (k0, v0) ∨ p ∈ setAssoc rest k v) with h | h
      · exact Or.inr (by simp [h])
      · rcases ih h with h | h
        · exact Or.inl h
        · exact Or.inr (List.mem_cons_of_mem _ h)

theorem mem_removeAssoc {m : ScheduleDataManager} {k : String}
    {p : String × ScheduleData} (hp : p ∈ removeAssoc m k) : p ∈ m := by
  induction m with
  | nil => simp [removeAssoc] at hp
  | cons kv rest ih =>
    obtain ⟨k0, v0⟩ := kv
    by_cases h0 : k0 = k
    · exact List.mem_cons_of_mem _ (by simpa [removeAssoc, h0] using hp)
    · rcases (by simpa [removeAssoc, h0] using hp : p = (k0, v0) ∨ p ∈ removeAssoc rest k) with h | h
      · simp [h]
      · exact List.mem_cons_of_mem _ (ih h)

theorem lookupAssoc_mem {m : ScheduleDataManager} {k : String}
    {r : ScheduleData} (h : lookupAssoc m k = some r) : (k, r) ∈ m := by
  induction m with
  | nil => cases h
  | cons kv rest ih =>
    obtain ⟨k0, v0⟩ := kv
    by_cases h0 : k0 = k
    · subst h0
      rw [lookupAssoc, if_pos rfl] at h
      cases h; simp
    · rw [lookupAssoc, if_neg h0] at h
      exact List.mem_cons_of_mem _ (ih h)

theorem managerReachable_inv {m : ScheduleDataManager}
    (h : ManagerReachable m) : ManagerInv m := by
  induction h with
  | empty => intro p hp; cases hp
  | set r _ ih =>
    intro p hp
    rcases mem_setAssoc hp with h | h
    · subst h; rfl
    · exact ih p h
  | remove d _ ih => exact fun p hp => ih p (mem_removeAssoc hp)

theorem digitChar_isDigit {n : Nat} (h : n < 10) :
    (Nat.digitChar n).isDigit = true := by
  interval_cases n <;> decide

/-- Normalisation always produces a canonical yyyy-mm-dd string on valid
inputs. -/
theorem to_date_str_canonical (d : DateLike) (h : d.Valid) :
    isCanonicalDateStr (to_date_str d) = true := by
  have key : ∀ (y : Int) (m dd : Nat), 1 ≤ y → y ≤ 9999 → m ≤ 99 → dd ≤ 99 →
      isCanonicalDateStr (isoformat y m dd) = true := by
    intro y m dd h1 h2 h3 h4
    have hy : y.toNat ≤ 9999 := by omega
    have d1 : y.toNat / 1000 % 10 < 10 := Nat.mod_lt _ (by norm_num)
    have d2 : y.toNat / 100 % 10 < 10 := Nat.mod_lt _ (by norm_num)
    have d3 : y.toNat / 10 % 10 < 10 := Nat.mod_lt _ (by norm_num)
    have d4 : y.toNat % 10 < 10 := Nat.mod_lt _ (by norm_num)
    have d5 : m / 10 % 10 < 10 := Nat.mod_lt _ (by norm_num)
    have d6 : m % 10 < 10 := Nat.mod_lt _ (by norm_num)
    have d7 : dd / 10 % 10 < 10 := Nat.mod_lt _ (by norm_num)
    have d8 : dd % 10 < 10 := Nat.mod_lt _ (by norm_num)
    show isCanonicalDateStr ⟨_⟩ = true
    simp only [isoformat, pad4, pad2, String.append, isCanonicalDateStr]
    simp [digitChar_isDigit, d1, d2, d3, d4, d5, d6, d7, d8]
  cases d with
  | dtime y m dd =>
    obtain ⟨h1, h2, _, h3, _, h4⟩ := h
    exact key y m dd h1 h2 (by omega) (by omega)
  | date y m dd =>
    obtain ⟨h1, h2, _, h3, _, h4⟩ := h
    exact key y m dd h1 h2 (by omega) (by omega)
  | ts t =>
    obtain ⟨h1, h2, h3, h4⟩ := h
    exact key _ _ _ h1 h2 h3 h4

/-! ### History-context assembly (`Main.generate_schedule_with_llm`,
src/main.py lines 336-341)

`datetime.now()` is modelled by its day count `today`; the in-memory
`schedule_data` dict by an association list from yyyy-mm-dd keys to
records with `outfit`/`schedule` string fields. -/

/-- A value of main.py's `schedule_data` dict. -/
structure ScheduleInfo where
  outfit : String
  schedule : String
deriving DecidableEq

def lookupInfo : List (String × ScheduleInfo) → String → Option ScheduleInfo
  | [], _ => none
  | (k', v) :: rest, k => if k' = k then some v else lookupInfo rest k

/-- Python string slicing `s[:100]`. -/
def takeChars (n : Nat) (s : String) : String := ⟨s.data.take n⟩

/-- The history loop: for i in 1..d, if day (today − i) is cached, append
a line with a 100-character excerpt of its schedule.  The loop runs i
ascending, so yesterday comes first. -/
def history_schedules (data : List (String × ScheduleInfo)) (today : Int)
    (d : Nat) : List String :=
  (List.range' 1 d).filterMap fun (i : Nat) =>
    match lookupInfo data (dateStrOfDay (today - (i : Int))) with
    | some rec =>
      some ("[" ++ dateStrOfDay (today - (i : Int)) ++ "]: " ++
        takeChars 100 rec.schedule ++ "...")
    | none => none

/-- Python `"\n".join`. -/
def joinNl : List String → String
  | [] => ""
  | [s] => s
  | s :: rest => s ++ "\n" ++ joinNl rest

/-- The placeholder used when no history line was collected. -/
def NO_HISTORY : String := "无历史记录"

def history_schedules_str (data : List (String × ScheduleInfo)) (today : Int)
    (d : Nat) : String :=
  let hs := history_schedules data today d
  if hs.isEmpty then NO_HISTORY else joinNl hs

/-- The spec's reading of the same loop: one line per cached prior day, in
chronological order from oldest to newest. -/
def history_oldest_first (data : List (String × ScheduleInfo)) (today : Int)
    (d : Nat) : List String :=
  (List.range' 1 d).reverse.filterMap fun (i : Nat) =>
    match lookupInfo data (dateStrOfDay (today - (i : Int))) with
    | some rec =>
      some ("[" ++ dateStrOfDay (today - (i : Int)) ++ "]: " ++
        takeChars 100 rec.schedule ++ "...")
    | none => none

theorem history_elem_shape {data : List (String × ScheduleInfo)} {today : Int}
    {d : Nat} {x : String} (hx : x ∈ history_schedules data today d) :
    ∃ r, x = "[" ++ r := by
  rw [history_schedules] at hx
  obtain ⟨i, _, hf⟩ := List.mem_filterMap.mp hx
  have hf' : (match lookupInfo data (dateStrOfDay (today - (i : Int))) with
      | some rec =>
        some ("[" ++ dateStrOfDay (today - (i : Int)) ++ "]: " ++
          takeChars 100 rec.schedule ++ "...")
      | none => none) = some x := hf
  rcases hl : lookupInfo data (dateStrOfDay (today - (i : Int))) with _ | rec
  · rw [hl] at hf'; cases hf'
  · rw [hl] at hf'
    cases hf'
    exact ⟨_, by rw [String.append_assoc, String.append_assoc, String.append_assoc]⟩

theorem joinNl_data_head {l : List String}
    (hshape : ∀ x ∈ l, ∃ r, x = "[" ++ r) (hne : l ≠ []) :
    (joinNl l).data.head? = some '[' := by
  cases l with
  | nil => cases hne rfl
  | cons a rest =>
    obtain ⟨r, hr⟩ := hshape a (by simp)
    subst hr
    cases rest with
    | nil =>
      show ("[" ++ r).data.head? = some '['
      rw [String.data_append]
      rfl
    | cons b t =>
      show ((("[" ++ r) ++ "\n") ++ joinNl (b :: t)).data.head? = some '['
      rw [String.data_append, String.data_append]
      rfl

theorem joinNl_ne_no_history {l : List String}
    (hshape : ∀ x ∈ l, ∃ r, x = "[" ++ r) (hne : l ≠ []) :
    joinNl l ≠ NO_HISTORY := by
  intro hcon
  have h1 := joinNl_data_head hshape hne
  rw [hcon] at h1
  exact absurd h1 (by decide)

/-! ### The `/life time` command branch
(src/main.py lines 500-514, `LifeScheduler.update_schedule_time` lines
225-236, `Main.save_config` lines 275-286)

The observable state is the scheduler's in-memory time and registered cron
job, the configuration's `schedule_time`, the persisted snapshot's value,
and counters of file writes and job reschedules. -/

structure SchedState where
  schedTime : String
  job : Option String
  rescheduleCount : Nat
deriving DecidableEq

structure MainState where
  sched : SchedState
  configTime : String
  diskConfigTime : Option String
  writeCount : Nat
deriving DecidableEq

/-- Python `str.split(":")`. -/
def splitColon : List Char → List (List Char)
  | [] => [[]]
  | c :: cs =>
    if c = ':' then [] :: splitColon cs
    else
      match splitColon cs with
      | g :: gs => (c :: g) :: gs
      | [] => [[c]]

/-- The tuple unpack `hour, minute = new_time.split(":")`: succeeds only
on exactly two parts. -/
def splitColon2 (s : String) : Option (String × String) :=
  match splitColon s.data with
  | [a, b] => some (⟨a⟩, ⟨b⟩)
  | _ => none

/-- Model of `re.match(r"^\d{2}:\d{2}$", param)`: two digits, colon, two digits; a
single trailing newline is also accepted because an unanchored dollar
matches before it.  Python's unicode digit class is restricted to ASCII
digits here. -/
def matchHHMM (s : String) : Bool :=
  match s.data with
  | [a, b, ':', c, d] => a.isDigit && b.isDigit && c.isDigit && d.isDigit
  | [a, b, ':', c, d, '\n'] => a.isDigit && b.isDigit && c.isDigit && d.isDigit
  | _ => false

/-- Decimal value of an all-digit character list. -/
def decNat? (cs : List Char) : Option Nat :=
  if cs ≠ [] ∧ cs.all Char.isDigit then
    some (cs.foldl (fun acc c => acc * 10 + (c.toNat - '0'.toNat)) 0)
  else none

/-- Whether apscheduler accepts the hour/minute strings passed to
`job.reschedule('cron', hour=..., minute=...)`: for the plain numeric
fields used here, a decimal value inside the cron field's range. -/
def cronFieldOk (s : String) (lo hi : Nat) : Bool :=
  match decNat? s.data with
  | some n => lo ≤ n && n ≤ hi
  | none => false

/-- Whether the reschedule call of `update_schedule_time` succeeds for a
given new time (the guard the try/except effectively implements). -/
def jobRescheduleOk (t : String) : Bool :=
  match splitColon2 t with
  | some (h, m) => cronFieldOk h 0 23 && cronFieldOk m 0 59
  | none => false

/-- Model of `LifeScheduler.update_schedule_time` (src/main.py lines 225-236): a
no-op when the time is unchanged; otherwise split, record the new time,
and reschedule the job if present — a failing split or a failing
reschedule is caught and logged, leaving the job as it was (the time
itself is only assigned after a successful split). -/
def update_schedule_time (st : SchedState) (newTime : String) : SchedState :=
  if newTime = st.schedTime then st
  else
    match splitColon2 newTime with
    | none => st
    | some (h, m) =>
      match st.job with
      | none => { st with schedTime := newTime }
      | some _ =>
        if cronFieldOk h 0 23 && cronFieldOk m 0 59 then
          { st with schedTime := newTime
                    job := some newTime
                    rescheduleCount := st.rescheduleCount + 1 }
        else { st with schedTime := newTime }

/-- Model of `Main.save_config`: one snapshot write of the current configuration. -/
def save_config (s : MainState) : MainState :=
  { s with diskConfigTime := some s.configTime, writeCount := s.writeCount + 1 }

/-- The `time` branch of `Main.life_command` (src/main.py lines 500-514):
reject an empty or non-matching argument, otherwise update the scheduler,
assign the configuration time, and persist. -/
def life_time_command (s : MainState) (param : String) : MainState × String :=
  if param = "" then
    (s, "请提供时间，格式为 HH:MM，例如 /life time 07:30")
  else if matchHHMM param = false then
    (s, "时间格式错误，请使用 HH:MM 格式。")
  else
    let sched := update_schedule_time s.sched param
    let s1 := { s with sched := sched, configTime := param }
    let s2 := save_config s1
    (s2, "已将每日日程生成时间更新为 " ++ param ++ "。")

/-! ### The snapshot-write sequences of `Main.save_data` / `Main.save_config`
(src/main.py lines 275-286 and 299-311)

A save is a list of primitive file-system operations; a crash is modelled
by executing only a prefix.  The serialisation into the temporary sibling
file is one operation because it never touches the canonical path (a crash
in the middle of it leaves the canonical file exactly as a shorter prefix
does). -/

inductive FsOp where
  | writeTemp (c : String)
  | removeCanon
  | replaceOverCanon
deriving DecidableEq

/-- The two files a save touches: the canonical snapshot and its temporary
sibling. -/
structure FsState where
  canon : Option String
  temp : Option String
deriving DecidableEq

def applyFsOp (fs : FsState) (op : FsOp) : FsState :=
  match op with
  | .writeTemp c => { fs with temp := some c }
  | .removeCanon => { fs with canon := none }
  | .replaceOverCanon => { canon := fs.temp, temp := none }

def runFsOps (fs : FsState) (ops : List FsOp) : FsState :=
  ops.foldl applyFsOp fs

/-- The operation sequence of a save: write the serialised snapshot to the
temp sibling, then `os.replace` it over the canonical path — except that
when `os.name == 'nt'` and the canonical file exists, the code first
`os.remove`s the canonical file. -/
def save_ops (isNt : Bool) (fs : FsState) (content : String) : List FsOp :=
  [.writeTemp content]
    ++ (if isNt && fs.canon.isSome then [.removeCanon] else [])
    ++ [.replaceOverCanon]

/-! ### The concurrent trigger machinery for one day key
(src/main.py: `Main.on_llm_request` lines 422-444,
`Main.daily_schedule_task` lines 313-325)

Everything is single-process and cooperative: synchronous code runs
atomically, control changes hands only at await points.  Each lazy trigger
(an `on_llm_request` invocation whose session is not the generator's own)
and the cron task are small state machines; a scheduler step picks a task
and runs it to its next suspension point.  `mem`/`disk` hold today's
record in the in-memory dict and in the persisted snapshot, identified by
the index of the generator invocation that produced it (`some 0` marks a
pre-existing record).  `go k` is the outcome of the k-th generator
invocation. -/

inductive LazyPC where
  | l0
  | lWait
  | lGen (ok : Bool) (id : Nat)
  | lSave
  | lDoneSkip
  | lDoneGen
  | lDoneFail
deriving DecidableEq

inductive CronPC where
  | c0
  | cGen (ok : Bool) (id : Nat)
  | cSave
  | cDone
deriving DecidableEq

structure GenSys where
  lazies : List LazyPC
  cron : Option CronPC
  mem : Option Nat
  disk : Option Nat
  failedToday : Bool
  lock : Bool
  gen : Nat
deriving DecidableEq

/-- One step of a lazy trigger at index `i`:
* `l0` — the unlocked double-check: if today is cached or marked failed,
  finish without generating, else go wait for the generation lock;
* `lWait` — blocked while the lock is held; once free, acquire it, re-check
  under the lock (released again immediately on a skip), else invoke the
  generator (counted, outcome predetermined by `go`) while holding the lock;
* `lGen` — the generator returns: on success write today's record into the
  in-memory dict and go save; on failure mark today failed and release;
* `lSave` — `save_data` completes: snapshot the in-memory record and
  release the lock. -/
def stepLazyAt (go : Nat → Bool) (s : GenSys) (i : Nat) : LazyPC → GenSys
  | .l0 =>
    if s.mem.isSome || s.failedToday then
      { s with lazies := s.lazies.set i .lDoneSkip }
    else
      { s with lazies := s.lazies.set i .lWait }
  | .lWait =>
    if s.lock then s
    else if s.mem.isSome || s.failedToday then
      { s with lazies := s.lazies.set i .lDoneSkip }
    else
      { s with lazies := s.lazies.set i (.lGen (go s.gen) (s.gen + 1)),
               lock := true, gen := s.gen + 1 }
  | .lGen ok id =>
    if ok then { s with lazies := s.lazies.set i .lSave, mem := some id }
    else { s with lazies := s.lazies.set i .lDoneFail, failedToday := true, lock := false }
  | .lSave => { s with lazies := s.lazies.set i .lDoneGen, disk := s.mem, lock := false }
  | .lDoneSkip => s
  | .lDoneGen => s
  | .lDoneFail => s

def stepLazy (go : Nat → Bool) (s : GenSys) (i : Nat) : GenSys :=
  match s.lazies.get? i with
  | none => s
  | some pc => stepLazyAt go s i pc

/-- One step of the cron task `daily_schedule_task`: it never consults the
cache, the failed set, or the generation lock — it invokes the generator,
and on success writes today's record and saves. -/
def stepCronAt (go : Nat → Bool) (s : GenSys) : CronPC → GenSys
  | .c0 => { s with cron := some (.cGen (go s.gen) (s.gen + 1)), gen := s.gen + 1 }
  | .cGen ok id =>
    if ok then { s with cron := some .cSave, mem := some id }
    else { s with cron := some .cDone }
  | .cSave => { s with cron := some .cDone, disk := s.mem }
  | .cDone => s

def stepCron (go : Nat → Bool) (s : GenSys) : GenSys :=
  match s.cron with
  | none => s
  | some pc => stepCronAt go s pc

/-- A scheduler step: indices below the lazy count step that lazy task,
any other index steps the cron task (a no-op when absent). -/
def stepSys (go : Nat → Bool) (s : GenSys) (i : Nat) : GenSys :=
  if i < s.lazies.length then stepLazy go s i else stepCron go s

/-- Run a whole interleaving. -/
def runSys (go : Nat → Bool) (s : GenSys) (sched : List Nat) : GenSys :=
  sched.foldl (stepSys go) s

/-- Initial state for a day: `n` pending lazy triggers, optionally the
cron fire, today's record `mem0` both in memory and on disk, and the
failed-date marker `f0`. -/
def initSys (n : Nat) (withCron : Bool) (mem0 : Option Nat) (f0 : Bool) : GenSys :=
  ⟨List.replicate n .l0, if withCron then some .c0 else none, mem0, mem0, f0, false, 0⟩

/-- The generator always succeeds. -/
def goTrue : Nat → Bool := fun _ => true

def lazyDone : LazyPC → Bool
  | .lDoneSkip => true
  | .lDoneGen => true
  | .lDoneFail => true
  | _ => false

/-- Every task has run to completion. -/
def allDone (s : GenSys) : Bool :=
  s.lazies.all lazyDone &&
    (match s.cron with
     | none => true
     | some .cDone => true
     | some _ => false)

/-! ### Invariants of the trigger system -/

/-- Lazy tasks that have invoked the generator (in flight or finished
through the generating path). -/
def startedL : LazyPC → Bool
  | .lGen _ _ => true
  | .lSave => true
  | .lDoneGen => true
  | _ => false

/-- Lazy tasks currently holding the generation lock. -/
def critL : LazyPC → Bool
  | .lGen _ _ => true
  | .lSave => true
  | _ => false

/-- Generator invocations contributed by the cron task so far. -/
def cronStartedN : Option CronPC → Nat
  | none => 0
  | some .c0 => 0
  | some _ => 1

theorem countP_set_get? {α : Type} (p : α → Bool) :
    ∀ (l : List α) (i : Nat) {b : α}, l.get? i = some b → ∀ a,
      (l.set i a).countP p + (if p b then 1 else 0) =
        l.countP p + (if p a then 1 else 0) := by
  intro l
  induction l with
  | nil => intro i b h a; cases h
  | cons x xs ih =>
    intro i b h a
    cases i with
    | zero =>
      rw [List.get?] at h
      cases h
      simp only [List.set, List.countP_cons]
      omega
    | succ j =>
      rw [List.get?] at h
      simp only [List.set, List.countP_cons]
      have := ih j h a
      omega

theorem get?_some_lt {α : Type} {l : List α} {i : Nat} {a : α}
    (h : l.get? i = some a) : i < l.length :=
  (List.get?_eq_some.mp h).1

theorem get?_set_self_of {α : Type} {l : List α} {i : Nat} {b : α}
    (h : l.get? i = some b) (a : α) : (l.set i a).get? i = some a := by
  rw [List.get?_set_eq, h]; rfl

/-- The invariant preserved by every step when the generator always
succeeds and the day starts uncached and unmarked. -/
structure InvC1 (s : GenSys) : Prop where
  hfail : s.failedToday = false
  hlokF : ∀ i id, s.lazies.get? i ≠ some (.lGen false id)
  hlokD : ∀ i, s.lazies.get? i ≠ some .lDoneFail
  hcok : ∀ id, s.cron ≠ some (.cGen false id)
  hlock : s.lock = true ↔ 0 < s.lazies.countP critL
  hstart : s.lazies.countP startedL ≤ 1
  hmemSave : ∀ i, (s.lazies.get? i = some .lSave ∨ s.lazies.get? i = some .lDoneGen) →
    s.mem.isSome = true
  hcmem : (s.cron = some .cSave ∨ s.cron = some .cDone) → s.mem.isSome = true
  hgen : s.gen = cronStartedN s.cron + s.lazies.countP startedL
  hmemGen : s.mem.isSome = true → 1 ≤ s.gen
  hearly : s.gen = 0 → ∀ i pc, s.lazies.get? i = some pc → pc = .l0 ∨ pc = .lWait

/-- Replacing one lazy pc by another that is neither started, critical,
saving, done-generating nor failed preserves the invariant. -/
theorem invC1_set_inert {s : GenSys} (hInv : InvC1 s) {i : Nat} {pc pc' : LazyPC}
    (h : s.lazies.get? i = some pc)
    (hpcS : startedL pc = false) (hpcS' : startedL pc' = false)
    (hpcC : critL pc = false) (hpcC' : critL pc' = false)
    (hfailok : pc' ≠ .lDoneFail) (hgenok : ∀ b id, pc' ≠ .lGen b id)
    (hsave1 : pc' ≠ .lSave) (hsave2 : pc' ≠ .lDoneGen)
    (hearly' : s.gen = 0 → pc' = .l0 ∨ pc' = .lWait) :
    InvC1 { s with lazies := s.lazies.set i pc' } := by
  have hcrit := countP_set_get? critL s.lazies i h pc'
  have hstart := countP_set_get? startedL s.lazies i h pc'
  rw [hpcC, hpcC'] at hcrit
  rw [hpcS, hpcS'] at hstart
  simp only [Bool.false_eq_true, if_false, Nat.add_zero] at hcrit hstart
  refine ⟨hInv.hfail, ?_, ?_, hInv.hcok, ?_, ?_, ?_, hInv.hcmem, ?_, hInv.hmemGen, ?_⟩
  · intro j id
    by_cases hj : j = i
    · subst hj; rw [get?_set_self_of h]
      intro hcon; cases hcon; exact hgenok false id rfl
    · rw [List.get?_set_ne _ _ (fun e => hj e.symm)]; exact hInv.hlokF j id
  · intro j
    by_cases hj : j = i
    · subst hj; rw [get?_set_self_of h]
      intro hcon; cases hcon; exact hfailok rfl
    · rw [List.get?_set_ne _ _ (fun e => hj e.symm)]; exact hInv.hlokD j
  · show s.lock = true ↔ 0 < List.countP critL (s.lazies.set i pc')
    rw [hInv.hlock]; omega
  · show List.countP startedL (s.lazies.set i pc') ≤ 1
    have := hInv.hstart; omega
  · intro j hj
    by_cases hji : j = i
    · subst hji; rw [get?_set_self_of h] at hj
      rcases hj with hj | hj
      · cases hj; exact absurd rfl hsave1
      · cases hj; exact absurd rfl hsave2
    · rw [List.get?_set_ne _ _ (fun e => hji e.symm)] at hj
      exact hInv.hmemSave j hj
  · show s.gen = cronStartedN s.cron + List.countP startedL (s.lazies.set i pc')
    rw [hInv.hgen]; omega
  · intro h0 j pc0 hj
    by_cases hji : j = i
    · subst hji; rw [get?_set_self_of h] at hj
      cases hj; exact hearly' h0
    · rw [List.get?_set_ne _ _ (fun e => hji e.symm)] at hj
      exact hInv.hearly h0 j pc0 hj

/-- Step preservation of the invariant (generator always succeeding). -/
theorem invC1_step {go : Nat → Bool} (hgo : ∀ k, go k = true) {s : GenSys}
    (hInv : InvC1 s) (i : Nat) : InvC1 (stepSys go s i) := by
  rw [stepSys]
  by_cases hi : i < s.lazies.length
  · -- a lazy task steps
    rw [if_pos hi]
    rcases h : s.lazies.get? i with _ | pc
    · rw [stepLazy, h]; exact hInv
    have hred : stepLazy go s i = stepLazyAt go s i pc := by rw [stepLazy, h]
    rw [hred]
    cases pc with
    | l0 =>
      simp only [stepLazyAt]
      by_cases hc : (s.mem.isSome || s.failedToday) = true
      · rw [if_pos hc]
        have hmem : s.mem.isSome = true := by
          rcases Bool.or_eq_true_iff.mp hc with h1 | h1
          · exact h1
          · exact absurd h1 (by rw [hInv.hfail]; exact Bool.false_ne_true)
        exact invC1_set_inert hInv h rfl rfl rfl rfl (by intro hcon; cases hcon)
          (by intro b id hcon; cases hcon) (by intro hcon; cases hcon)
          (by intro hcon; cases hcon)
          (fun h0 => absurd (hInv.hmemGen hmem) (by omega))
      · rw [if_neg hc]
        exact invC1_set_inert hInv h rfl rfl rfl rfl (by intro hcon; cases hcon)
          (by intro b id hcon; cases hcon) (by intro hcon; cases hcon)
          (by intro hcon; cases hcon) (fun _ => Or.inr rfl)
    | lWait =>
      simp only [stepLazyAt]
      by_cases hl : s.lock = true
      · rw [if_pos hl]; exact hInv
      · rw [if_neg hl]
        by_cases hc : (s.mem.isSome || s.failedToday) = true
        · rw [if_pos hc]
          have hmem : s.mem.isSome = true := by
            rcases Bool.or_eq_true_iff.mp hc with h1 | h1
            · exact h1
            · exact absurd h1 (by rw [hInv.hfail]; exact Bool.false_ne_true)
          exact invC1_set_inert hInv h rfl rfl rfl rfl (by intro hcon; cases hcon)
            (by intro b id hcon; cases hcon) (by intro hcon; cases hcon)
            (by intro hcon; cases hcon)
            (fun h0 => absurd (hInv.hmemGen hmem) (by omega))
        · -- acquire the lock and invoke the generator
          rw [if_neg hc]
          have hmem : s.mem.isSome = false := by
            cases hm : s.mem.isSome
            · rfl
            · exact absurd (by rw [hm]; rfl) hc
          have hcnt0 : s.lazies.countP startedL = 0 := by
            rw [List.countP_eq_zero]
            intro a ha hsa
            cases a with
            | lGen b id =>
              have hpos : 0 < s.lazies.countP critL :=
                List.countP_pos_iff.mpr ⟨_, ha, rfl⟩
              exact hl (hInv.hlock.mpr hpos)
            | lSave =>
              have hpos : 0 < s.lazies.countP critL :=
                List.countP_pos_iff.mpr ⟨_, ha, rfl⟩
              exact hl (hInv.hlock.mpr hpos)
            | lDoneGen =>
              obtain ⟨j, hj⟩ := List.mem_iff_get?.mp ha
              rw [hInv.hmemSave j (Or.inr hj)] at hmem
              cases hmem
            | l0 => cases hsa
            | lWait => cases hsa
            | lDoneSkip => cases hsa
            | lDoneFail => cases hsa
          have hcrit := countP_set_get? critL s.lazies i h (.lGen (go s.gen) (s.gen + 1))
          have hstart := countP_set_get? startedL s.lazies i h (.lGen (go s.gen) (s.gen + 1))
          simp only [critL, startedL] at hcrit hstart
          simp only [Bool.false_eq_true, if_false, if_true, Nat.add_zero] at hcrit hstart
          refine ⟨hInv.hfail, ?_, ?_, hInv.hcok, ?_, ?_, ?_, ?_, ?_, ?_, ?_⟩
          · intro j id
            by_cases hj : j = i
            · subst hj
              rw [get?_set_self_of h]
              intro hcon
              rw [hgo s.gen] at hcon
              cases hcon
            · rw [List.get?_set_ne _ _ (fun e => hj e.symm)]; exact hInv.hlokF j id
          · intro j
            by_cases hj : j = i
            · subst hj
              rw [get?_set_self_of h]
              intro hcon; cases hcon
            · rw [List.get?_set_ne _ _ (fun e => hj e.symm)]; exact hInv.hlokD j
          · show true = true ↔
              0 < List.countP critL (s.lazies.set i (.lGen (go s.gen) (s.gen + 1)))
            constructor
            · intro _; omega
            · intro _; rfl
          · show List.countP startedL (s.lazies.set i (.lGen (go s.gen) (s.gen + 1))) ≤ 1
            omega
          · intro j hj
            by_cases hji : j = i
            · subst hji
              rw [get?_set_self_of h] at hj
              rcases hj with hj | hj <;> cases hj
            · rw [List.get?_set_ne _ _ (fun e => hji e.symm)] at hj
              exact hInv.hmemSave j hj
          · exact fun hc' => hInv.hcmem hc'
          · show s.gen + 1 =
              cronStartedN s.cron + List.countP startedL (s.lazies.set i (.lGen (go s.gen) (s.gen + 1)))
            have := hInv.hgen; omega
          · intro _
            show 1 ≤ s.gen + 1
            omega
          · intro h0
            exact absurd (show s.gen + 1 = 0 from h0) (by omega)
    | lGen ok id =>
      cases ok with
      | false => exact absurd h (hInv.hlokF i id)
      | true =>
        simp only [stepLazyAt, if_true]
        have hlt : 0 < s.lazies.countP startedL :=
          List.countP_pos_iff.mpr ⟨_, List.get?_mem h, rfl⟩
        have hgen1 : 1 ≤ s.gen := by have := hInv.hgen; omega
        have hcrit := countP_set_get? critL s.lazies i h .lSave
        have hstart := countP_set_get? startedL s.lazies i h .lSave
        simp only [critL, startedL, if_true] at hcrit hstart
        refine ⟨hInv.hfail, ?_, ?_, hInv.hcok, ?_, ?_, ?_, ?_, ?_, ?_, ?_⟩
        · intro j id'
          by_cases hj : j = i
          · subst hj
            rw [get?_set_self_of h]; intro hcon; cases hcon
          · rw [List.get?_set_ne _ _ (fun e => hj e.symm)]; exact hInv.hlokF j id'
        · intro j
          by_cases hj : j = i
          · subst hj
            rw [get?_set_self_of h]; intro hcon; cases hcon
          · rw [List.get?_set_ne _ _ (fun e => hj e.symm)]; exact hInv.hlokD j
        · show s.lock = true ↔ 0 < List.countP critL (s.lazies.set i .lSave)
          rw [hInv.hlock]; omega
        · show List.countP startedL (s.lazies.set i .lSave) ≤ 1
          have := hInv.hstart; omega
        · intro j _; rfl
        · intro _; rfl
        · show s.gen = cronStartedN s.cron + List.countP startedL (s.lazies.set i .lSave)
          rw [hInv.hgen]; omega
        · intro _; exact hgen1
        · intro h0
          exact absurd (show s.gen = 0 from h0) (by omega)
    | lSave =>
      simp only [stepLazyAt]
      have hlt : 0 < s.lazies.countP startedL :=
        List.countP_pos_iff.mpr ⟨_, List.get?_mem h, rfl⟩
      have hgen1 : 1 ≤ s.gen := by have := hInv.hgen; omega
      have hmem : s.mem.isSome = true := hInv.hmemSave i (Or.inl h)
      have hcrit := countP_set_get? critL s.lazies i h .lDoneGen
      have hstart := countP_set_get? startedL s.lazies i h .lDoneGen
      simp only [critL, startedL] at hcrit hstart
      simp only [Bool.false_eq_true, if_false, if_true, Nat.add_zero] at hcrit hstart
      have hle := @List.countP_mono_left _ critL startedL s.lazies
        (fun x _ hx => by cases x <;> first | exact hx | cases hx)
      refine ⟨hInv.hfail, ?_, ?_, hInv.hcok, ?_, ?_, ?_, ?_, ?_, ?_, ?_⟩
      · intro j id'
        by_cases hj : j = i
        · subst hj
          rw [get?_set_self_of h]; intro hcon; cases hcon
        · rw [List.get?_set_ne _ _ (fun e => hj e.symm)]; exact hInv.hlokF j id'
      · intro j
        by_cases hj : j = i
        · subst hj
          rw [get?_set_self_of h]; intro hcon; cases hcon
        · rw [List.get?_set_ne _ _ (fun e => hj e.symm)]; exact hInv.hlokD j
      · show false = true ↔ 0 < List.countP critL (s.lazies.set i .lDoneGen)
        have hcritpos : 0 < s.lazies.countP critL :=
          List.countP_pos_iff.mpr ⟨_, List.get?_mem h, rfl⟩
        have := hInv.hstart
        constructor
        · intro hcon; cases hcon
        · intro hpos; omega
      · show List.countP startedL (s.lazies.set i .lDoneGen) ≤ 1
        have := hInv.hstart; omega
      · intro j _; exact hmem
      · intro _; exact hmem
      · show s.gen = cronStartedN s.cron + List.countP startedL (s.lazies.set i .lDoneGen)
        rw [hInv.hgen]; omega
      · intro _; exact hgen1
      · intro h0
        exact absurd (show s.gen = 0 from h0) (by omega)
    | lDoneSkip => simp only [stepLazyAt]; exact hInv
    | lDoneGen => simp only [stepLazyAt]; exact hInv
    | lDoneFail => exact absurd h (hInv.hlokD i)
  · -- the cron task steps
    rw [if_neg hi]
    rcases hc : s.cron with _ | pc
    · rw [stepCron, hc]; exact hInv
    have hred : stepCron go s = stepCronAt go s pc := by rw [stepCron, hc]
    rw [hred]
    cases pc with
    | c0 =>
      simp only [stepCronAt]
      have hgen1 : s.gen = s.lazies.countP startedL := by
        have hg := hInv.hgen; rw [hc] at hg; simpa [cronStartedN] using hg
      refine ⟨hInv.hfail, hInv.hlokF, hInv.hlokD, ?_, hInv.hlock, hInv.hstart, ?_, ?_, ?_, ?_, ?_⟩
      · intro id hcon
        rw [hgo s.gen] at hcon
        cases hcon
      · exact fun j hj => hInv.hmemSave j hj
      · intro hcon
        rcases hcon with hcon | hcon <;> cases hcon
      · show s.gen + 1 =
          cronStartedN (some (.cGen (go s.gen) (s.gen + 1))) + List.countP startedL s.lazies
        simp only [cronStartedN]
        omega
      · intro hm
        have h1 := hInv.hmemGen hm
        show 1 ≤ s.gen + 1
        omega
      · intro h0
        exact absurd (show s.gen + 1 = 0 from h0) (by omega)
    | cGen ok id =>
      cases ok with
      | false => exact absurd hc (hInv.hcok id)
      | true =>
        simp only [stepCronAt, if_true]
        have hgenc : s.gen = 1 + s.lazies.countP startedL := by
          have hg := hInv.hgen; rw [hc] at hg; simpa [cronStartedN] using hg
        refine ⟨hInv.hfail, hInv.hlokF, hInv.hlokD, ?_, hInv.hlock, hInv.hstart, ?_, ?_, ?_, ?_, ?_⟩
        · intro id' hcon; cases hcon
        · intro j _; rfl
        · intro _; rfl
        · show s.gen = cronStartedN (some .cSave) + List.countP startedL s.lazies
          simp only [cronStartedN]; omega
        · intro _
          show 1 ≤ s.gen
          omega
        · intro h0
          exact absurd (show s.gen = 0 from h0) (by omega)
    | cSave =>
      simp only [stepCronAt]
      have hmem : s.mem.isSome = true := hInv.hcmem (Or.inl hc)
      have hgenc : s.gen = 1 + s.lazies.countP startedL := by
        have hg := hInv.hgen; rw [hc] at hg; simpa [cronStartedN] using hg
      refine ⟨hInv.hfail, hInv.hlokF, hInv.hlokD, ?_, hInv.hlock, hInv.hstart, ?_, ?_, ?_, ?_, ?_⟩
      · intro id' hcon; cases hcon
      · exact fun j hj => hInv.hmemSave j hj
      · intro _; exact hmem
      · show s.gen = cronStartedN (some .cDone) + List.countP startedL s.lazies
        simp only [cronStartedN]; omega
      · intro _
        show 1 ≤ s.gen
        omega
      · intro h0
        exact absurd (show s.gen = 0 from h0) (by omega)
    | cDone => simp only [stepCronAt]; exact hInv

/-- The invariant holds along any interleaving. -/
theorem invC1_run {go : Nat → Bool} (hgo : ∀ k, go k = true) {s : GenSys}
    (hInv : InvC1 s) (sched : List Nat) : InvC1 (runSys go s sched) := by
  induction sched generalizing s with
  | nil => exact hInv
  | cons i rest ih => exact ih (invC1_step hgo hInv i)

/-- The invariant holds initially when today is uncached and unmarked. -/
theorem invC1_init (n : Nat) (withCron : Bool) :
    InvC1 (initSys n withCron none false) := by
  have hrep : ∀ (j : Nat) (pc : LazyPC),
      (List.replicate n LazyPC.l0).get? j = some pc → pc = .l0 := by
    intro j pc hj
    exact List.eq_of_mem_replicate (List.get?_mem hj)
  refine ⟨rfl, ?_, ?_, ?_, ?_, ?_, ?_, ?_, ?_, ?_, ?_⟩
  · intro i id hcon
    cases hrep i _ hcon
  · intro i hcon
    cases hrep i _ hcon
  · intro id hcon
    cases withCron <;> simp [initSys] at hcon
  · show false = true ↔ _
    rw [show (initSys n withCron none false).lazies = List.replicate n .l0 from rfl,
      List.countP_replicate]
    simp [critL]
  · rw [show (initSys n withCron none false).lazies = List.replicate n .l0 from rfl,
      List.countP_replicate]
    simp [startedL]
  · intro i hi
    rcases hi with hi | hi <;> cases hrep i _ hi
  · intro hcon
    cases withCron <;> simp [initSys] at hcon
  · show 0 = _
    rw [show (initSys n withCron none false).lazies = List.replicate n .l0 from rfl,
      List.countP_replicate]
    cases withCron <;> simp [initSys, startedL, cronStartedN]
  · intro hcon; cases hcon
  · intro _ i pc hi
    exact Or.inl (hrep i pc hi)

theorem stepLazyAt_length (go : Nat → Bool) (s : GenSys) (i : Nat) (pc : LazyPC) :
    (stepLazyAt go s i pc).lazies.length = s.lazies.length := by
  cases pc <;> simp only [stepLazyAt] <;> (try split_ifs) <;> simp [List.length_set]

theorem stepLazyAt_cron (go : Nat → Bool) (s : GenSys) (i : Nat) (pc : LazyPC) :
    (stepLazyAt go s i pc).cron = s.cron := by
  cases pc <;> simp only [stepLazyAt] <;> (try split_ifs) <;> rfl

/-- Steps preserve the number of lazy tasks. -/
theorem stepSys_length (go : Nat → Bool) (s : GenSys) (i : Nat) :
    (stepSys go s i).lazies.length = s.lazies.length := by
  rw [stepSys]
  by_cases hi : i < s.lazies.length
  · rw [if_pos hi]
    rcases h : s.lazies.get? i with _ | pc
    · rw [stepLazy, h]
    · have hred : stepLazy go s i = stepLazyAt go s i pc := by rw [stepLazy, h]
      rw [hred, stepLazyAt_length]
  · rw [if_neg hi]
    rcases h : s.cron with _ | pc
    · rw [stepCron, h]
    · have hred : stepCron go s = stepCronAt go s pc := by rw [stepCron, h]
      rw [hred]
      cases pc <;> simp only [stepCronAt] <;> (try split_ifs) <;> rfl

theorem runSys_length (go : Nat → Bool) (s : GenSys) (sched : List Nat) :
    (runSys go s sched).lazies.length = s.lazies.length := by
  induction sched generalizing s with
  | nil => rfl
  | cons i rest ih =>
    show (runSys go (stepSys go s i) rest).lazies.length = _
    rw [ih, stepSys_length]

/-- Steps never create a cron task. -/
theorem stepSys_cron_none (go : Nat → Bool) (s : GenSys) (i : Nat)
    (h : s.cron = none) : (stepSys go s i).cron = none := by
  rw [stepSys]
  by_cases hi : i < s.lazies.length
  · rw [if_pos hi]
    rcases hg : s.lazies.get? i with _ | pc
    · rw [stepLazy, hg]; exact h
    · have hred : stepLazy go s i = stepLazyAt go s i pc := by rw [stepLazy, hg]
      rw [hred, stepLazyAt_cron]; exact h
  · rw [if_neg hi, stepCron, h]; exact h

theorem runSys_cron_none (go : Nat → Bool) (s : GenSys) (sched : List Nat)
    (h : s.cron = none) : (runSys go s sched).cron = none := by
  induction sched generalizing s with
  | nil => exact h
  | cons i rest ih =>
    exact ih (stepSys go s i) (stepSys_cron_none go s i h)

theorem stepSys_cron_isSome (go : Nat → Bool) (s : GenSys) (i : Nat)
    (h : s.cron.isSome = true) : (stepSys go s i).cron.isSome = true := by
  rw [stepSys]
  by_cases hi : i < s.lazies.length
  · rw [if_pos hi]
    rcases hg : s.lazies.get? i with _ | pc
    · rw [stepLazy, hg]; exact h
    · have hred : stepLazy go s i = stepLazyAt go s i pc := by rw [stepLazy, hg]
      rw [hred, stepLazyAt_cron]; exact h
  · rw [if_neg hi]
    rcases hc : s.cron with _ | pc
    · rw [hc] at h; cases h
    · have hred : stepCron go s = stepCronAt go s pc := by rw [stepCron, hc]
      rw [hred]
      cases pc <;> simp only [stepCronAt] <;> (try split_ifs) <;> first | rfl | exact h

theorem runSys_cron_isSome (go : Nat → Bool) (s : GenSys) (sched : List Nat)
    (h : s.cron.isSome = true) : (runSys go s sched).cron.isSome = true := by
  induction sched generalizing s with
  | nil => exact h
  | cons i rest ih =>
    exact ih (stepSys go s i) (stepSys_cron_isSome go s i h)

/-- Steady state: with today's record present or today marked failed, lazy
triggers only check and finish; nothing else ever happens. -/
def SteadyInv (m0 : Option Nat) (f0 : Bool) (s : GenSys) : Prop :=
  s.mem = m0 ∧ s.disk = m0 ∧ s.gen = 0 ∧ s.lock = false ∧ s.failedToday = f0 ∧
  s.cron = none ∧ ∀ pc ∈ s.lazies, pc = .l0 ∨ pc = .lDoneSkip

theorem steadyInv_step (go : Nat → Bool) {m0 : Option Nat} {f0 : Bool}
    (htrig : m0.isSome = true ∨ f0 = true) {s : GenSys}
    (hs : SteadyInv m0 f0 s) (i : Nat) : SteadyInv m0 f0 (stepSys go s i) := by
  obtain ⟨hm, hd, hg, hl, hf, hc, hpc⟩ := hs
  rw [stepSys]
  by_cases hi : i < s.lazies.length
  · rw [if_pos hi]
    rcases h : s.lazies.get? i with _ | pc
    · rw [stepLazy, h]; exact ⟨hm, hd, hg, hl, hf, hc, hpc⟩
    have hred : stepLazy go s i = stepLazyAt go s i pc := by rw [stepLazy, h]
    rw [hred]
    have hcond : (s.mem.isSome || s.failedToday) = true := by
      rcases htrig with ht | ht
      · rw [hm, ht]; rfl
      · rw [hf, ht]; simp
    rcases hpc pc (List.get?_mem h) with hpc0 | hpc0 <;> subst hpc0
    · simp only [stepLazyAt]
      rw [if_pos hcond]
      refine ⟨hm, hd, hg, hl, hf, hc, ?_⟩
      intro pc' hmem
      rcases List.mem_or_eq_of_mem_set hmem with h' | h'
      · exact hpc pc' h'
      · exact Or.inr h'
    · simp only [stepLazyAt]
      exact ⟨hm, hd, hg, hl, hf, hc, hpc⟩
  · rw [if_neg hi, stepCron, hc]
    exact ⟨hm, hd, hg, hl, hf, hc, hpc⟩

theorem steadyInv_run (go : Nat → Bool) {m0 : Option Nat} {f0 : Bool}
    (htrig : m0.isSome = true ∨ f0 = true) {s : GenSys}
    (hs : SteadyInv m0 f0 s) (sched : List Nat) :
    SteadyInv m0 f0 (runSys go s sched) := by
  induction sched generalizing s with
  | nil => exact hs
  | cons i rest ih => exact ih (steadyInv_step go htrig hs i)

theorem steadyInv_init (n : Nat) (m0 : Option Nat) (f0 : Bool) :
    SteadyInv m0 f0 (initSys n false m0 f0) :=
  ⟨rfl, rfl, rfl, rfl, rfl, rfl,
    fun pc hpc => Or.inl (List.eq_of_mem_replicate hpc)⟩

/-- Final-state analysis, lazy-only system: exactly one invocation and a
record present. -/
theorem genSys_final_lazyOnly {s : GenSys} (hInv : InvC1 s) (hcron : s.cron = none)
    (hlen : 0 < s.lazies.length) (hdone : allDone s = true) :
    s.gen = 1 ∧ s.mem.isSome = true := by
  rw [allDone, Bool.and_eq_true] at hdone
  obtain ⟨hall, _⟩ := hdone
  have hall' : ∀ pc ∈ s.lazies, lazyDone pc = true := List.all_eq_true.mp hall
  have hgen : s.gen = s.lazies.countP startedL := by
    have hg := hInv.hgen; rw [hcron] at hg; simpa [cronStartedN] using hg
  have hne : s.gen ≠ 0 := by
    intro h0
    cases hx : s.lazies.get? 0 with
    | none =>
      rw [List.get?_eq_none] at hx
      omega
    | some pc =>
      have hdn := hall' pc (List.get?_mem hx)
      rcases hInv.hearly h0 0 pc hx with h1 | h1 <;> subst h1 <;> cases hdn
  have hgen1 : s.gen = 1 := by
    have := hInv.hstart; omega
  refine ⟨hgen1, ?_⟩
  have hpos : 0 < s.lazies.countP startedL := by omega
  obtain ⟨a, ha, hsa⟩ := List.countP_pos_iff.mp hpos
  have hda := hall' a ha
  have hgenA : a = .lDoneGen := by
    cases a with
    | lDoneGen => rfl
    | l0 => cases hda
    | lWait => cases hda
    | lGen ok id => cases hda
    | lSave => cases hda
    | lDoneSkip => cases hsa
    | lDoneFail => cases hsa
  subst hgenA
  obtain ⟨j, hj⟩ := List.mem_iff_get?.mp ha
  exact hInv.hmemSave j (Or.inr hj)

/-- Final-state analysis, lazy plus cron: between one and two invocations,
record present. -/
theorem genSys_final_withCron {s : GenSys} (hInv : InvC1 s)
    (hcron : s.cron.isSome = true) (hdone : allDone s = true) :
    1 ≤ s.gen ∧ s.gen ≤ 2 ∧ s.mem.isSome = true := by
  rw [allDone, Bool.and_eq_true] at hdone
  obtain ⟨_, hcd⟩ := hdone
  obtain ⟨pc, hpc⟩ := Option.isSome_iff_exists.mp hcron
  rw [hpc] at hcd
  have hpcDone : pc = .cDone := by
    cases pc <;> first | rfl | cases hcd
  subst hpcDone
  have hg := hInv.hgen
  rw [hpc] at hg
  simp only [cronStartedN] at hg
  have hst := hInv.hstart
  exact ⟨by omega, by omega, hInv.hcmem (Or.inr hpc)⟩

/-! ### The claims -/

/-- C1, counterexample: with one lazy trigger and the cron fire racing for
an uncached day, the interleaving that lets the lazy trigger generate and
save first and then runs the cron task completes with two generator
invocations, not exactly one — the cron path never checks the cache. -/
theorem c1_counterexample :
    allDone (runSys goTrue (initSys 1 true none false) [0, 0, 0, 0, 1, 1, 1]) = true ∧
    (runSys goTrue (initSys 1 true none false) [0, 0, 0, 0, 1, 1, 1]).gen = 2 ∧
    (runSys goTrue (initSys 1 true none false) [0, 0, 0, 0, 1, 1, 1]).gen ≠ 1 := by
  refine ⟨rfl, rfl, ?_⟩
  intro h
  rw [show (runSys goTrue (initSys 1 true none false) [0, 0, 0, 0, 1, 1, 1]).gen = 2
    from rfl] at h
  cases h

/-- C1 (amended): with a successful generator and an uncached, unmarked
day, any completed interleaving of N ≥ 1 concurrent lazy triggers alone
invokes the generator exactly once and leaves today's record present; a
simultaneous cron fire adds its own unconditional invocation, so a
completed interleaving of N lazy triggers plus the cron fire makes between
one and two invocations (two whenever a lazy trigger generates before the
cron finishes), still with exactly one record present for the day. -/
theorem c1_amended_generation_counts :
    (∀ (n : Nat) (sched : List Nat), 0 < n →
        allDone (runSys goTrue (initSys n false none false) sched) = true →
        (runSys goTrue (initSys n false none false) sched).gen = 1 ∧
        (runSys goTrue (initSys n false none false) sched).mem.isSome = true) ∧
    (∀ (n : Nat) (sched : List Nat),
        allDone (runSys goTrue (initSys n true none false) sched) = true →
        1 ≤ (runSys goTrue (initSys n true none false) sched).gen ∧
        (runSys goTrue (initSys n true none false) sched).gen ≤ 2 ∧
        (runSys goTrue (initSys n true none false) sched).mem.isSome = true) := by
  constructor
  · intro n sched hn hdone
    have hInv := invC1_run (fun _ => rfl) (invC1_init n false) sched
    have hc := runSys_cron_none goTrue (initSys n false none false) sched rfl
    have hlen : 0 < (runSys goTrue (initSys n false none false) sched).lazies.length := by
      rw [runSys_length]
      show 0 < (List.replicate n LazyPC.l0).length
      simpa using hn
    exact genSys_final_lazyOnly hInv hc hlen hdone
  · intro n sched hdone
    have hInv := invC1_run (fun _ => rfl) (invC1_init n true) sched
    have hc := runSys_cron_isSome goTrue (initSys n true none false) sched rfl
    exact genSys_final_withCron hInv hc hdone

theorem c1_amended_generation_counts_witness :
    ((runSys goTrue (initSys 1 false none false) [0, 0, 0, 0]).gen = 1 ∧
      (runSys goTrue (initSys 1 false none false) [0, 0, 0, 0]).mem.isSome = true) ∧
    (1 ≤ (runSys goTrue (initSys 1 true none false) [0, 0, 0, 0, 1, 1, 1]).gen ∧
      (runSys goTrue (initSys 1 true none false) [0, 0, 0, 0, 1, 1, 1]).gen ≤ 2 ∧
      (runSys goTrue (initSys 1 true none false) [0, 0, 0, 0, 1, 1, 1]).mem.isSome = true) :=
  ⟨c1_amended_generation_counts.1 1 [0, 0, 0, 0] (by decide) (by decide),
   c1_amended_generation_counts.2 1 [0, 0, 0, 0, 1, 1, 1] (by decide)⟩

/-- C2, counterexample: with today's record already present (id 0), a cron
fire runs to completion and replaces it with a freshly generated record
(id 1) — the cron path overwrites without any regenerate command. -/
theorem c2_counterexample :
    (runSys goTrue (initSys 0 true (some 0) false) [0, 0, 0]).mem = some 1 ∧
    (some 1 : Option Nat) ≠ some 0 := by
  exact ⟨rfl, by decide⟩

/-- C2 (amended): once a record for the day is present, no interleaving of
lazy triggers ever replaces it, touches the persisted snapshot, or invokes
the generator — the lazy path only fires when today's record is absent;
the cron task and the regenerate command, however, generate and overwrite
unconditionally. -/
theorem c2_amended_lazy_never_overwrites :
    ∀ (go : Nat → Bool) (n : Nat) (sched : List Nat) (r : Nat) (f : Bool),
      (runSys go (initSys n false (some r) f) sched).mem = some r ∧
      (runSys go (initSys n false (some r) f) sched).disk = some r ∧
      (runSys go (initSys n false (some r) f) sched).gen = 0 := by
  intro go n sched r f
  obtain ⟨hm, hd, hg, -, -, -, -⟩ :=
    @steadyInv_run go (some r) f (Or.inl rfl) (initSys n false (some r) f)
      (steadyInv_init n (some r) f) sched
  exact ⟨hm, hd, hg⟩

/-- C3: once today is in the failed-date set, any interleaving of lazy
triggers makes zero generator invocations and leaves the artifact store
(in memory and on disk) and the failed marker unchanged, whatever the
generator would have returned. -/
theorem c3_failed_memoization :
    ∀ (go : Nat → Bool) (n : Nat) (sched : List Nat) (m0 : Option Nat),
      (runSys go (initSys n false m0 true) sched).gen = 0 ∧
      (runSys go (initSys n false m0 true) sched).mem = m0 ∧
      (runSys go (initSys n false m0 true) sched).disk = m0 ∧
      (runSys go (initSys n false m0 true) sched).failedToday = true := by
  intro go n sched m0
  obtain ⟨hm, hd, hg, -, hf, -, -⟩ :=
    steadyInv_run go (Or.inr rfl) (steadyInv_init n m0 true) sched
  exact ⟨hg, hm, hd, hf⟩

/-- C4, counterexample: the extractor never checks for `outfit` and
`schedule` fields — an input whose only balanced candidate is a JSON
object with neither field is returned as-is instead of yielding none. -/
theorem c4_counterexample :
    extract_json_from_text "\x7b\"k\":\"v\"\x7d" = some (Json.obj [("k", Json.str "v")]) ∧
    jsonField (Json.obj [("k", Json.str "v")]) "outfit" = none ∧
    jsonField (Json.obj [("k", Json.str "v")]) "schedule" = none :=
  ⟨rfl, rfl, rfl⟩

/-- C4 (amended): the extractor strips fence markers, locates the first
opening brace, scans forward tracking nested brace depth with
string/escape awareness, and returns the first balanced candidate that
parses as JSON at all (necessarily an object, with no requirement on its
fields); if no balanced candidate parses it returns none.  Nested braces
inside a string value do not break extraction of the two fields. -/
theorem c4_amended_extractor_structure :
    (∀ text, extract_json_from_text text = extract_json_spec text) ∧
    extract_json_from_text "\x7b\"outfit\":\"a \x7bb\x7d\",\"schedule\":\"c\"\x7d" =
      some (Json.obj [("outfit", Json.str "a \x7bb\x7d"), ("schedule", Json.str "c")]) := by
  constructor
  · intro text
    rcases hx : fromFirstBrace (preprocess text) with _ | tail
    · rw [extract_json_from_text, extract_json_spec, hx]
    · rw [extract_json_from_text, extract_json_spec, hx]
      exact scanLoop_eq_candList tail [] 0 false false
  · rfl

/-- C5: whenever extraction yields none the pipeline returns the degraded
record — fixed placeholder outfit, the full raw generator text as the
schedule — and the result is always truthy, so generation still succeeds;
checked concretely on the unparsable input "no json here". -/
theorem c5_degraded_fallback :
    (∀ content, extract_json_from_text content = none →
        generate_schedule_result content = degraded_record content) ∧
    (∀ content, pyTruthyJson (generate_schedule_result content) = true) ∧
    extract_json_from_text "no json here" = none ∧
    generate_schedule_result "no json here" = degraded_record "no json here" := by
  refine ⟨?_, ?_, rfl, rfl⟩
  · intro content h
    rw [generate_schedule_result, h]
  · intro content
    rcases hx : extract_json_from_text content with _ | j
    · rw [generate_schedule_result, hx]
      rfl
    · rw [generate_schedule_result, hx]
      show pyTruthyJson (if pyTruthyJson j = true then j else degraded_record content) = true
      by_cases ht : pyTruthyJson j = true
      · rw [if_pos ht]; exact ht
      · rw [if_neg ht]; rfl

theorem c5_degraded_fallback_witness :
    generate_schedule_result "no json here" = degraded_record "no json here" :=
  c5_degraded_fallback.1 "no json here" rfl

/-- C6: the save sequence writes the serialised snapshot to a temporary
sibling and renames it over the canonical path, which on the non-Windows
branch leaves the canonical file either untouched or fully replaced at
every crash prefix; but on the Windows branch (`os.name == 'nt'` with an
existing snapshot) the code removes the canonical file before the rename,
so the crash prefix that stops right after the removal leaves no snapshot
at all — the previous snapshot is not intact, contradicting the claim and
the code's own "Atomic write" comment. -/
theorem c6_windows_crash_gap :
    (save_ops true ⟨some "old", none⟩ "new").take 2 =
      [FsOp.writeTemp "new", FsOp.removeCanon] ∧
    (runFsOps ⟨some "old", none⟩ ((save_ops true ⟨some "old", none⟩ "new").take 2)).canon
      = none ∧
    (runFsOps ⟨some "old", none⟩ (save_ops true ⟨some "old", none⟩ "new")).canon
      = some "new" ∧
    (∀ (fs : FsState) (content : String) (k : Nat),
      (runFsOps fs ((save_ops false fs content).take k)).canon = fs.canon ∨
      (runFsOps fs ((save_ops false fs content).take k)).canon = some content) ∧
    (∀ (fs : FsState) (content : String),
      (runFsOps fs (save_ops false fs content)).canon = some content) := by
  refine ⟨rfl, rfl, rfl, ?_, ?_⟩
  · intro fs content k
    have hops : save_ops false fs content = [FsOp.writeTemp content, FsOp.replaceOverCanon] := by
      rw [save_ops]
      rfl
    rw [hops]
    match k with
    | 0 => exact Or.inl rfl
    | 1 => exact Or.inl rfl
    | n + 2 =>
      rw [List.take_of_length_le (by simp)]
      exact Or.inr rfl
  · intro fs content
    have hops : save_ops false fs content = [FsOp.writeTemp content, FsOp.replaceOverCanon] := by
      rw [save_ops]
      rfl
    rw [hops]
    rfl

/-- C7, counterexample: with two prior days cached, the assembled history
lists yesterday first and the older day second — reverse chronological
order, not the oldest-to-newest order the claim states. -/
theorem c7_counterexample :
    history_schedules [("1970-01-02", ⟨"o2", "s2"⟩), ("1970-01-03", ⟨"o3", "s3"⟩)] 3 2 ≠
      history_oldest_first [("1970-01-02", ⟨"o2", "s2"⟩), ("1970-01-03", ⟨"o3", "s3"⟩)] 3 2 := by
  decide

/-- C7 (amended): the history context contains exactly one truncated
schedule excerpt per prior day (today − i, i in 1..d) that has a record —
no placeholder lines for missing days — but listed from newest to oldest
(the reverse of chronological order), and the "no history" placeholder
appears exactly when no prior day in the window has a record. -/
theorem c7_amended_history_newest_first :
    ∀ (data : List (String × ScheduleInfo)) (today : Int) (d : Nat),
      history_schedules data today d = (history_oldest_first data today d).reverse ∧
      (history_schedules_str data today d = NO_HISTORY ↔
        ∀ i ∈ List.range' 1 d,
          lookupInfo data (dateStrOfDay (today - (i : Int))) = none) := by
  intro data today d
  have hchar : history_schedules data today d = [] ↔
      ∀ i ∈ List.range' 1 d,
        lookupInfo data (dateStrOfDay (today - (i : Int))) = none := by
    rw [history_schedules, List.filterMap_eq_nil_iff]
    constructor
    · intro hall i hi
      have hthis := hall i hi
      rcases hl : lookupInfo data (dateStrOfDay (today - (i : Int))) with _ | rec
      · rfl
      · rw [hl] at hthis; cases hthis
    · intro hall i hi
      rw [hall i hi]
  constructor
  · rw [history_schedules, history_oldest_first, List.filterMap_reverse,
      List.reverse_reverse]
  · constructor
    · intro hstr
      rw [← hchar]
      by_contra hne
      have hjoin := joinNl_ne_no_history
        (fun x hx => history_elem_shape hx) hne
      rw [history_schedules_str] at hstr
      rw [if_neg (fun he => hne (List.isEmpty_iff.mp he))] at hstr
      exact hjoin hstr
    · intro hall
      have hz := hchar.mpr hall
      rw [history_schedules_str, hz]
      rfl

/-- C8, counterexample: invoking the time command with the currently
configured time still calls `save_config` — the write counter advances, so
a configuration write does occur. -/
theorem c8_counterexample :
    ((life_time_command ⟨⟨"07:00", some "07:00", 0⟩, "07:00", some "07:00", 0⟩
        "07:00").1).writeCount = 1 ∧
    (1 : Nat) ≠ 0 :=
  ⟨rfl, by decide⟩

/-- C8 (amended): invoking the time command with the currently configured
time performs no job re-registration and leaves the scheduler job, its
reschedule counter, the in-memory configuration and the snapshot's content
unchanged — but it still performs one configuration write, rewriting the
identical snapshot. -/
theorem c8_amended_time_noop :
    ∀ (s : MainState), matchHHMM s.configTime = true →
      s.sched.schedTime = s.configTime →
      (life_time_command s s.configTime).1 =
        { s with diskConfigTime := some s.configTime
                 writeCount := s.writeCount + 1 } := by
  intro s hm he
  have hne : s.configTime ≠ "" := by
    intro h0; rw [h0] at hm; cases hm
  rw [life_time_command]
  split_ifs with h1 h2
  · exact absurd h1 hne
  · rw [h2] at hm; cases hm
  · rw [update_schedule_time, if_pos he.symm]
    rfl

theorem c8_amended_time_noop_witness :
    (life_time_command ⟨⟨"07:00", some "07:00", 3⟩, "07:00", some "07:00", 5⟩
        "07:00").1 =
      ⟨⟨"07:00", some "07:00", 3⟩, "07:00", some "07:00", 6⟩ :=
  c8_amended_time_noop ⟨⟨"07:00", some "07:00", 3⟩, "07:00", some "07:00", 5⟩
    (by decide) rfl

/-- C9, counterexample: "25:61" is not a 24-hour wall-clock time, yet it
matches the two-digit pattern the command actually checks; the command
accepts it, mutates the in-memory configuration, persists it, and leaves
the scheduler job on the old time because the reschedule call fails. -/
theorem c9_counterexample :
    matchHHMM "25:61" = true ∧
    jobRescheduleOk "25:61" = false ∧
    ((life_time_command ⟨⟨"07:00", some "07:00", 0⟩, "07:00", some "07:00", 0⟩
        "25:61").1).configTime = "25:61" ∧
    ((life_time_command ⟨⟨"07:00", some "07:00", 0⟩, "07:00", some "07:00", 0⟩
        "25:61").1).diskConfigTime = some "25:61" ∧
    ((life_time_command ⟨⟨"07:00", some "07:00", 0⟩, "07:00", some "07:00", 0⟩
        "25:61").1).sched.job = some "07:00" :=
  ⟨rfl, rfl, rfl, rfl, rfl⟩

/-- C9 (amended): the command validates only the two-digit pattern
`\d{2}:\d{2}`: every argument that is empty or fails the pattern is
rejected before any mutation, leaving the whole state unchanged; an
argument that matches the pattern but is not an acceptable cron time
(e.g. "25:61") is accepted — the in-memory configuration and the snapshot
are updated to it while the scheduler job and its reschedule counter stay
on the previous schedule. -/
theorem c9_amended_pattern_validation :
    (∀ (s : MainState) (param : String), matchHHMM param = false →
        (life_time_command s param).1 = s) ∧
    (∀ (s : MainState) (param : String), matchHHMM param = true →
        jobRescheduleOk param = false →
        ((life_time_command s param).1).sched.job = s.sched.job ∧
        ((life_time_command s param).1).sched.rescheduleCount = s.sched.rescheduleCount ∧
        ((life_time_command s param).1).configTime = param ∧
        ((life_time_command s param).1).diskConfigTime = some param ∧
        ((life_time_command s param).1).writeCount = s.writeCount + 1) := by
  constructor
  · intro s param hm
    rw [life_time_command]
    by_cases h1 : param = ""
    · rw [if_pos h1]
    · rw [if_neg h1, if_pos hm]
  · intro s param hm hok
    obtain ⟨⟨stime, sjob, scount⟩, ctime, dtime, wcount⟩ := s
    have hne : param ≠ "" := by
      intro h0; rw [h0] at hm; cases hm
    have hu : (update_schedule_time ⟨stime, sjob, scount⟩ param).job = sjob ∧
        (update_schedule_time ⟨stime, sjob, scount⟩ param).rescheduleCount = scount := by
      rw [update_schedule_time]
      by_cases hpe : param = stime
      · rw [if_pos hpe]; exact ⟨rfl, rfl⟩
      · rw [if_neg hpe]
        rcases hsp : splitColon2 param with _ | hm2
        · exact ⟨rfl, rfl⟩
        · obtain ⟨hh, mm⟩ := hm2
          rw [jobRescheduleOk, hsp] at hok
          have hok' : (cronFieldOk hh 0 23 && cronFieldOk mm 0 59) = false := hok
          cases sjob with
          | none => exact ⟨rfl, rfl⟩
          | some jb =>
            dsimp only
            rw [if_neg (fun hcon => Bool.false_ne_true (hok'.symm.trans hcon))]
            exact ⟨rfl, rfl⟩
    rw [life_time_command]
    split_ifs with h1 h2
    · exact absurd h1 hne
    · rw [h2] at hm; cases hm
    · exact ⟨hu.1, hu.2, rfl, rfl, rfl⟩

theorem c9_amended_pattern_validation_witness :
    (life_time_command ⟨⟨"07:00", some "07:00", 0⟩, "07:00", some "07:00", 0⟩
        "7:30").1 =
      ⟨⟨"07:00", some "07:00", 0⟩, "07:00", some "07:00", 0⟩ ∧
    (((life_time_command ⟨⟨"07:00", some "07:00", 2⟩, "07:00", some "07:00", 4⟩
        "25:61").1).sched.job = some "07:00" ∧
      ((life_time_command ⟨⟨"07:00", some "07:00", 2⟩, "07:00", some "07:00", 4⟩
        "25:61").1).sched.rescheduleCount = 2 ∧
      ((life_time_command ⟨⟨"07:00", some "07:00", 2⟩, "07:00", some "07:00", 4⟩
        "25:61").1).configTime = "25:61" ∧
      ((life_time_command ⟨⟨"07:00", some "07:00", 2⟩, "07:00", some "07:00", 4⟩
        "25:61").1).diskConfigTime = some "25:61" ∧
      ((life_time_command ⟨⟨"07:00", some "07:00", 2⟩, "07:00", some "07:00", 4⟩
        "25:61").1).writeCount = 5) :=
  ⟨c9_amended_pattern_validation.1
      ⟨⟨"07:00", some "07:00", 0⟩, "07:00", some "07:00", 0⟩ "7:30" (by decide),
   c9_amended_pattern_validation.2
      ⟨⟨"07:00", some "07:00", 2⟩, "07:00", some "07:00", 4⟩ "25:61"
      (by decide) (by decide)⟩

/-- C10: the data manager stores a record under its own `date` field
verbatim while `get` normalises its date-like argument through
`to_date_str`; on any reachable manager state and valid input,
`get d` after `set r` returns `r` exactly when `to_date_str d` equals
`r.date`, and every record reachable through `get` carries a canonical
yyyy-mm-dd date. -/
theorem c10_manager_normalization :
    ∀ (m : ScheduleDataManager) (r : ScheduleData) (d : DateLike),
      ManagerReachable m → d.Valid →
      lookupAssoc (m.set r) r.date = some r ∧
      ((m.set r).get d = some r ↔ to_date_str d = r.date) ∧
      (∀ r', m.get d = some r' → isCanonicalDateStr r'.date = true) := by
  intro m r d hreach hvalid
  have hinv := managerReachable_inv hreach
  refine ⟨lookupAssoc_setAssoc_self m r.date r, ⟨?_, ?_⟩, ?_⟩
  · intro hget
    by_contra hne
    rw [ScheduleDataManager.get, ScheduleDataManager.set,
      lookupAssoc_setAssoc_ne m r.date (to_date_str d) r hne] at hget
    have hmem := lookupAssoc_mem hget
    have hd := hinv _ hmem
    exact hne hd.symm
  · intro heq
    rw [ScheduleDataManager.get, heq, ScheduleDataManager.set,
      lookupAssoc_setAssoc_self]
  · intro r' hget
    have hmem := lookupAssoc_mem hget
    have hd := hinv _ hmem
    rw [show r'.date = to_date_str d from hd]
    exact to_date_str_canonical d hvalid

theorem c10_manager_normalization_witness :
    lookupAssoc (ScheduleDataManager.set [] ⟨"2024-01-09", "o", "s", .ok⟩)
        "2024-01-09" = some ⟨"2024-01-09", "o", "s", .ok⟩ ∧
    ((ScheduleDataManager.set [] ⟨"2024-01-09", "o", "s", .ok⟩).get
        (.date 2024 1 9) = some ⟨"2024-01-09", "o", "s", .ok⟩ ↔
      to_date_str (.date 2024 1 9) = "2024-01-09") ∧
    (∀ r', ScheduleDataManager.get [] (.date 2024 1 9) = some r' →
      isCanonicalDateStr r'.date = true) :=
  c10_manager_normalization [] ⟨"2024-01-09", "o", "s", .ok⟩ (.date 2024 1 9)
    ManagerReachable.empty (by decide)

end LifeSched
